/-
Verification of the ATLLM document-assistant repository.

This file gives a shallow embedding, in Lean 4, of the parts of the
repository that the specification's claims are about:

* `utils/cache_manager.py`   — answer cache keyed by a digest of
  `f"{user_id}:{query}:{context}"`, with TTL expiry on read;
* `utils/conversation_manager.py` — per-user conversation log with
  truncation in `add_user_message`;
* `utils/retry_handler.py`   — `exponential_backoff` retry decorator;
* `src/openai_service.py`    — `get_embedding` body (its internal
  `try/except Exception` fallback) as wrapped by the retry decorator;
* `utils/query_router.py`    — keyword-scoring query router;
* `src/document_store_simple.py` — document store: per-user index,
  add/delete/get, cosine similarity and `search_documents`.

Python floats are idealised as real numbers (ℝ) where the mathematics
matters (cosine similarity) and as rationals (ℚ) where only ordering and
arithmetic on exact values matter (timestamps, delays).  Python dicts
keyed by `int` are modelled as total functions with default `[]` / `none`,
which is behaviourally equivalent for every operation modelled here
because the source never distinguishes "key absent" from the defaults.
Filesystem

 access (reading a document's text file) is modelled by an
explicit `String → Option String` parameter.
-/
import Mathlib

/-! ### Decimal rendering of Python `str(int)`

`_generate_key` in `utils/cache_manager.py` builds the composite cache key
with the f-string `f"{user_id}:{query}:{context}"`.  `str` of a Python
`int` is its decimal representation, with a leading `-` for negatives.
We model it with an explicit fuel so that it reduces definitionally. -/

/-- The decimal digit character for `d < 10` (and a dummy otherwise). -/
def digitChar10 : Nat → Char
  | 0 => '0'
  | 1 => '1'
  | 2 => '2'
  | 3 => '3'
  | 4 => '4'
  | 5 => '5'
  | 6 => '6'
  | 7 => '7'
  | 8 => '8'
  | 9 => '9'
  | _ => '*'

/-- Decimal digits of a natural number, with fuel (fuel `n + 1` suffices). -/
def natDigitsAux : Nat → Nat → List Char
  | 0, _ => []
  | fuel + 1, n =>
    if n < 10 then [digitChar10 n]
    else natDigitsAux fuel (n / 10) ++ [digitChar10 (n % 10)]

/-- The decimal representation of a natural number, e.g. `natDigits 45 = ['4','5']`. -/
def natDigits (n : Nat) : List Char := natDigitsAux (n + 1) n

/-- Python `str` of an `int`: decimal digits, `-`-prefixed when negative. -/
def intToDecimal : Int → List Char
  | .ofNat n => natDigits n
  | .negSucc n => '-' :: natDigits (n + 1)

/-- Reads a digit string back into a number (used to prove that decimal
rendering is injective). -/
def parseDigits (l : List Char) : Nat :=
  l.foldl (fun a c => a * 10 + (c.toNat - 48)) 0

/-! ### Cache manager (`utils/cache_manager.py`) -/

/-- The composite pre-digest key string of `CacheManager._generate_key`:
`f"{user_id}:{query}:{context}"`. -/
def compositeKey (u : Int) (q c : String) : String :=
  ⟨intToDecimal u ++ ':' :: (q.data ++ ':' :: c.data)⟩

/-- Model of `CacheManager._generate_key`: the digest (SHA-256 in the source,
abstracted here as an arbitrary function) of the composite key string. -/
def generateKey (digest : String → String) (q c : String) (u : Int) : String :=
  digest (compositeKey u q c)

/-- One cache file, as written by `CacheManager.set`. -/
structure CacheEntry where
  query : String
  answer : String
  timestamp : ℚ
  userId : Int

/-- The cache directory: a map from key to stored entry. -/
def CacheState := String → Option CacheEntry

/-- The empty cache directory. -/
def emptyCache : CacheState := fun _ => none

/-- Model of `CacheManager.set`: writes the entry (query, answer, timestamp = now, user_id)
under the digest of the composite key. -/
def cacheSet (digest : String → String) (st : CacheState) (q c : String)
    (u : Int) (a : String) (now : ℚ) : CacheState :=
  fun k => if k = generateKey digest q c u then some ⟨q, a, now, u⟩ else st k

/-- Model of `CacheManager.get`: returns the stored answer unless the entry is
absent or stale (`now - timestamp > ttl`); a stale entry is removed as a
side effect of the read.  Returns the answer (if any) and the cache state
after the read. -/
def cacheGet (digest : String → String) (ttl : ℚ) (st : CacheState)
    (q c : String) (u : Int) (now : ℚ) : Option String × CacheState :=
  match st (generateKey digest q c u) with
  | none => (none, st)
  | some e =>
    if ttl < now - e.timestamp then
      (none, fun k => if k = generateKey digest q c u then none else st k)
    else (some e.answer, st)

/-! ### Conversation manager (`utils/conversation_manager.py`) -/

/-- One message of a conversation log. -/
structure ChatMsg where
  role : String
  content : String
deriving DecidableEq

/-- Model of `ConversationManager.add_user_message`: appends a `"user"` message and,
when the log then exceeds `max_history * 2` entries, drops the two oldest
entries. -/
def addUserMessage (maxHistory : Nat) (h : List ChatMsg) (m : String) : List ChatMsg :=
  let h2 := h ++ [⟨"user", m⟩]
  if maxHistory * 2 < h2.length then h2.drop 2 else h2

/-- Model of `ConversationManager.add_assistant_message`: appends an `"assistant"`
message; performs no truncation. -/
def addAssistantMessage (h : List ChatMsg) (m : String) : List ChatMsg :=
  h ++ [⟨"assistant", m⟩]

/-- One complete conversation turn: a user message immediately followed by
the assistant's reply. -/
def runTurn (maxHistory : Nat) (h : List ChatMsg) (t : String × String) : List ChatMsg :=
  addAssistantMessage (addUserMessage maxHistory h t.1) t.2

/-- A conversation made of complete turns, starting from the empty log. -/
def runTurns (maxHistory : Nat) (ts : List (String × String)) : List ChatMsg :=
  ts.foldl (runTurn maxHistory) []

/-- A log is paired when it is a sequence of (user, assistant) pairs, so in
particular it never starts mid-turn. -/
def isPairedLog : List ChatMsg → Bool
  | [] => true
  | [_] => false
  | u :: a :: t => u.role == "user" && a.role == "assistant" && isPairedLog t

/-! ### Retry handler (`utils/retry_handler.py`) -/

/-- The error kinds relevant to `RetryHandler.exponential_backoff`: the
four `openai` error classes in its default `exceptions` tuple are
retryable; every other exception (`other`) is not. -/
inductive ApiError where
  | rateLimit
  | apiConnection
  | apiTimeout
  | apiError
  | other (tag : String)
deriving DecidableEq

/-- Whether the error is caught by the decorator's `except exceptions` arm. -/
def retryableError : ApiError → Bool
  | .other _ => false
  | _ => true

/-- The outcome of one invocation of the wrapped function. -/
inductive CallOutcome (α : Type) where
  | ok (v : α)
  | raises (e : ApiError)
deriving DecidableEq

/-- The outcome of the whole wrapped call: a returned value, or a raised
exception (`error (some e)`); `error none` models the `raise last_exception`
line executing with `last_exception = None` (only reachable when
`max_retries = 0`). -/
inductive RetryResult (α : Type) where
  | value (v : α)
  | error (e : Option ApiError)
deriving DecidableEq

/-- The retry loop of `exponential_backoff`, over the list of remaining
0-indexed attempt numbers.  Accumulates the number of invocations of the
wrapped function and the list of performed sleep durations
`min(initial_delay * base ^ attempt, max_delay)`; a sleep happens only
when another attempt remains (`attempt < max_retries - 1`). -/
def retryAux (f : Nat → CallOutcome α) (initD maxD base : ℚ) (maxRetries : Nat) :
    List Nat → Nat → List ℚ → Option ApiError → RetryResult α × Nat × List ℚ
  | [], calls, sleeps, last => (.error last, calls, sleeps)
  | i :: rest, calls, sleeps, _last =>
    match f i with
    | .ok v => (.value v, calls + 1, sleeps)
    | .raises e =>
      if retryableError e then
        if i < maxRetries - 1 then
          retryAux f initD maxD base maxRetries rest (calls + 1)
            (sleeps ++ [min (initD * base ^ i) maxD]) (some e)
        else
          retryAux f initD maxD base maxRetries rest (calls + 1) sleeps (some e)
      else (.error (some e), calls + 1, sleeps)

/-- A call wrapped by `RetryHandler.exponential_backoff(max_retries,
initial_delay, max_delay, exponential_base)`, where `f i` is the behaviour
of the wrapped function on 0-indexed attempt `i`. -/
def runRetry (f : Nat → CallOutcome α) (maxRetries : Nat) (initD maxD base : ℚ) :
    RetryResult α × Nat × List ℚ :=
  retryAux f initD maxD base maxRetries (List.range maxRetries) 0 [] none

/-! ### `OpenAIService.get_embedding` (`src/openai_service.py`)

The method body is `try: return client.embeddings.create(...).data[0]
.embedding` with `except Exception: return []`.  The inner handler catches
every exception, including all four retryable `openai` error classes, so
the function itself never raises. -/

/-- The body of `get_embedding`: the result of the underlying client call
(`clientCall`), with the blanket `except Exception` arm turning any raised
error into the fallback `[]`. -/
def getEmbeddingBody (clientCall : CallOutcome (List ℚ)) : List ℚ :=
  match clientCall with
  | .ok v => v
  | .raises _ => []

/-- Model of `get_embedding` as decorated in the source:
`@RetryHandler.exponential_backoff(max_retries=3)` with the default
`initial_delay=1.0`, `max_delay=60.0`, `exponential_base=2.0`; `client i`
is the behaviour of the OpenAI client call on attempt `i`. -/
def getEmbeddingWithRetry (client : Nat → CallOutcome (List ℚ)) :
    RetryResult (List ℚ) × Nat × List ℚ :=
  runRetry (fun i => .ok (getEmbeddingBody (client i))) 3 1 60 2

/-! ### Query router (`utils/query_router.py`) -/

/-- The `QueryType` enum. -/
inductive QueryType where
  | factual
  | analytical
  | procedural
  | conceptual
  | comparison
deriving DecidableEq

/-- The `SearchStrategy` enum. -/
inductive SearchStrategy where
  | precise
  | broad
  | comprehensive
deriving DecidableEq

/-- The keyword table `QueryRouter.keywords`, verbatim from the constructor. -/
def queryKeywords : QueryType → List String
  | .factual =>
      ["кто", "что", "где", "когда", "какой", "какая", "какие",
       "сколько", "дата", "дедлайн", "процент", "команды"]
  | .analytical =>
      ["почему", "зачем", "как работает", "причина", "объясни",
       "разберись", "проанализируй", "в чем суть"]
  | .procedural =>
      ["как сделать", "как создать", "шаги", "инструкция",
       "руководство", "tutorial", "как использовать"]
  | .conceptual =>
      ["что такое", "определение", "концепция", "понятие",
       "термин", "смысл", "значение"]
  | .comparison =>
      ["сравни", "различие", "отличие", "сходство", "vs",
       "лучше", "хуже", "преимущество", "недостаток"]

/-- Lower-casing of one character, covering the alphabets the router's
keywords use: ASCII `A`–`Z` and Cyrillic `А`–`Я`/`Ё` (Python's
`str.lower()` restricted to those ranges). -/
def lowerChar (c : Char) : Char :=
  if 'A' ≤ c ∧ c ≤ 'Z' then Char.ofNat (c.toNat + 32)
  else if 'А' ≤ c ∧ c ≤ 'Я' then Char.ofNat (c.toNat + 32)
  else if c = 'Ё' then 'ё'
  else c

/-- Python `query.lower()`. -/
def lowerStr (s : String) : String := ⟨s.data.map lowerChar⟩

/-- Whether `needle` is a prefix of `hay`. -/
def beginsWithL : List Char → List Char → Bool
  | [], _ => true
  | _ :: _, [] => false
  | a :: as, b :: bs => a == b && beginsWithL as bs

/-- Whether `needle` occurs contiguously inside `hay`
(Python's `needle in hay` on strings). -/
def containsL (hay needle : List Char) : Bool :=
  match hay with
  | [] => beginsWithL needle []
  | c :: t => beginsWithL needle (c :: t) || containsL t needle

/-- Python `keyword in query_lower`. -/
def occursIn (needle hay : String) : Bool := containsL hay.data needle.data

/-- The score of one query type: the number of its keywords occurring as
substrings of the lower-cased query (`classify_query`'s scoring loop). -/
def scoreQuery (q : String) (t : QueryType) : Nat :=
  ((queryKeywords t).filter (fun kw => occursIn kw (lowerStr q))).length

/-- The iteration (= insertion) order of the `self.keywords` dict. -/
def typeOrder : List QueryType :=
  [.factual, .analytical, .procedural, .conceptual, .comparison]

/-- Python `max(items, key=snd)`: keeps the current best on ties, so the
first maximal element in iteration order wins. -/
def firstArgMax : List (QueryType × Nat) → QueryType × Nat → QueryType × Nat
  | [], best => best
  | x :: rest, best => firstArgMax rest (if best.2 < x.2 then x else best)

/-- Model of `QueryRouter.classify_query`: score every type, default to
`analytical` when the maximum score is zero, otherwise take the first
type attaining the maximum score. -/
def classifyQuery (q : String) : QueryType :=
  let scores := typeOrder.map (fun t => (t, scoreQuery q t))
  if (scores.map Prod.snd).foldl max 0 = 0 then .analytical
  else
    match scores with
    | [] => .analytical
    | x :: rest => (firstArgMax rest x).1

/-- The mapping `QueryRouter.type_to_strategy`. -/
def strategyFor : QueryType → SearchStrategy
  | .factual => .precise
  | .analytical => .broad
  | .procedural => .broad
  | .conceptual => .precise
  | .comparison => .comprehensive

/-- The `top_k` field of `QueryRouter.strategy_configs`. -/
def strategyTopK : SearchStrategy → Nat
  | .precise => 3
  | .broad => 7
  | .comprehensive => 10

/-- The `similarity_threshold` field of `QueryRouter.strategy_configs`
(`0.0` for every strategy). -/
def strategyThreshold : SearchStrategy → ℚ := fun _ => 0

/-- The `description` field of `QueryRouter.strategy_configs`. -/
def strategyDescription : SearchStrategy → String
  | .precise => "Precise search for factual questions"
  | .broad => "Broad search for analytical questions"
  | .comprehensive => "Comprehensive search for comparisons and complex questions"

/-- The dict returned by `QueryRouter.route`. -/
structure RouteResult where
  query : String
  queryType : QueryType
  strategy : SearchStrategy
  topK : Nat
  similarityThreshold : ℚ
  description : String
deriving DecidableEq

/-- Model of `QueryRouter.route`. -/
def route (q : String) : RouteResult :=
  let t := classifyQuery q
  let s := strategyFor t
  ⟨q, t, s, strategyTopK s, strategyThreshold s, strategyDescription s⟩

/-! ### Document store (`src/document_store_simple.py`)

Embedding vectors are Python `float` lists, idealised here as lists of
real numbers.  `OpenAIService` calls (summary, embeddings) are external
inputs and appear as parameters; file-system reads appear as a
`String → Option String` parameter. -/

/-- One document record, as built by `DocumentStore.add_document`
(`user_id` is `Option`al because `_build_user_index` tolerates records
without one, via `doc.get('user_id')`). -/
structure Doc where
  id : String
  title : String
  summary : String
  embedding : List ℝ
  textFile : String
  userId : Option Int

/-- The mutable state of a `DocumentStore`: the document list and the
per-user index `user_id -> document positions`.  The Python dict is
modelled as a total function defaulting to `[]`; the source deletes a
user's key exactly when its list becomes empty, so "key absent" and
"empty list" coincide on every state it builds. -/
structure Store where
  documents : List Doc
  userIndex : Int → List Nat

/-- The store of a fresh (empty) storage directory. -/
def store0 : Store := ⟨[], fun _ => []⟩

/-- Model of `DocumentStore._build_user_index`: position `idx` is listed under user
`u` exactly when `documents[idx]['user_id'] == u`, in increasing order of
position. -/
def buildUserIndex (docs : List Doc) : Int → List Nat :=
  fun u => (docs.enum.filter (fun p => p.2.userId == some u)).map Prod.fst

/-- Model of `DocumentStore.add_document` with the externally computed summary and
embedding passed in: fails (returns `False`) when the embedding came back
empty, otherwise appends the record and its position to the caller's
index entry. -/
def addDocument (s : Store) (docId title summary : String) (embedding : List ℝ)
    (textFile : String) (uid : Int) : Store × Bool :=
  if embedding.isEmpty then (s, false)
  else
    ({ documents := s.documents ++ [⟨docId, title, summary, embedding, textFile, some uid⟩],
       userIndex := fun u =>
         if u = uid then s.userIndex uid ++ [s.documents.length]
         else s.userIndex u }, true)

/-- Model of `DocumentStore.delete_document`: finds the first document with the
given id owned by the caller; removes it from the list; and rewrites
*only the caller's* index entry, dropping the removed position and
shifting the caller's later positions down by one.  Index entries of
other users are left untouched. -/
def deleteDocument (s : Store) (docId : String) (uid : Int) : Store × Bool :=
  match s.documents.findIdx? (fun d => d.id == docId && d.userId == some uid) with
  | none => (s, false)
  | some i =>
    ({ documents := s.documents.eraseIdx i,
       userIndex := fun u =>
         if u = uid then
           ((s.userIndex uid).filter (fun j => j != i)).map
             (fun j => if j < i then j else j - 1)
         else s.userIndex u }, true)

/-- Model of `DocumentStore.get_user_documents`, which returns
`[self.documents[idx] for idx in self.user_index[user_id]]`; an index
entry out of range raises `IndexError` (no `try` in this method),
modelled as `none`. -/
def getUserDocuments (s : Store) (u : Int) : Option (List Doc) :=
  (s.userIndex u).mapM (fun i => s.documents[i]?)

/-- The dot product `np.dot` on (same-length) vectors. -/
noncomputable def dotList (v1 v2 : List ℝ) : ℝ := (List.zipWith (· * ·) v1 v2).sum

/-- The sum of squares of a vector, so `np.linalg.norm v = √(sumSq v)`. -/
noncomputable def sumSq (v : List ℝ) : ℝ := (v.map (fun x => x * x)).sum

/-- Model of `DocumentStore._cosine_similarity`: `dot / (norm1 * norm2)`, `0.0`
when either norm is zero; the length guard models the `except` arm (for
mismatched shapes `np.dot` raises, and the handler returns `0.0`). -/
noncomputable def cosineSimilarity (v1 v2 : List ℝ) : ℝ :=
  if v1.length = v2.length then
    if Real.sqrt (sumSq v1) = 0 ∨ Real.sqrt (sumSq v2) = 0 then 0
    else dotList v1 v2 / (Real.sqrt (sumSq v1) * Real.sqrt (sumSq v2))
  else 0

/-- The candidate pass of `DocumentStore.search_documents`, up to (and
including) the threshold filter, in the original index order: the early
`[]` returns (no documents at all, caller absent from the index or with
an empty entry, query failed to embed), then for each position of the
caller's index entry the referenced document, skipping records with a
missing/empty embedding, paired with its similarity to the query
embedding and filtered by `similarity >= similarity_threshold`.  An
out-of-range position raises `IndexError` inside the `try`, and the
handler returns `[]`: the `all` guard models that. -/
noncomputable def searchCandidates (s : Store) (qe : List ℝ) (u : Int) (thr : ℝ) :
    List (ℝ × Doc) :=
  match s.documents with
  | [] => []
  | _ =>
    if s.userIndex u = [] then []
    else
      match qe with
      | [] => []
      | _ =>
        if (s.userIndex u).all (fun i => decide (i < s.documents.length)) then
          ((((s.userIndex u).filterMap (fun i => s.documents[i]?)).filter
              (fun d => !d.embedding.isEmpty)).map
            (fun d => (cosineSimilarity qe d.embedding, d))).filter
            (fun p => decide (thr ≤ p.1))
        else []

/-- The comparator of `similarities.sort(key=lambda x: x[0], reverse=True)`:
descending by similarity; a stable sort keeps ties in candidate order. -/
noncomputable def simDescLE (p1 p2 : ℝ × Doc) : Bool := decide (p2.1 ≤ p1.1)

/-- The sorted candidate list (Python `list.sort` is a stable sort,
modelled by `List.mergeSort`, which is stable). -/
noncomputable def searchSorted (s : Store) (qe : List ℝ) (u : Int) (thr : ℝ) :
    List (ℝ × Doc) :=
  (searchCandidates s qe u thr).mergeSort simDescLE

/-- One result dict of `search_documents`. -/
structure SearchResult where
  title : String
  summary : String
  fullText : String
  similarity : ℝ
  distance : ℝ

/-- Builds one result dict: `full_text` comes from the document's text
file when the path is non-empty and readable (`fs`), else falls back to
the summary; `distance = 1.0 - similarity`. -/
noncomputable def mkSearchResult (fs : String → Option String) (p : ℝ × Doc) :
    SearchResult :=
  { title := p.2.title
    summary := p.2.summary
    fullText :=
      match (if p.2.textFile = "" then none else fs p.2.textFile) with
      | some t => t
      | none => p.2.summary
    similarity := p.1
    distance := 1 - p.1 }

/-- Model of `DocumentStore.search_documents` with the query embedding (`qe`,
the external `get_embedding` result) and the file system (`fs`) passed
in: threshold-filtered candidates, stably sorted descending by
similarity, truncated to `top_k`, formatted as result dicts. -/
noncomputable def searchDocuments (fs : String → Option String) (s : Store)
    (qe : List ℝ) (u : Int) (topK : Nat) (thr : ℝ) : List SearchResult :=
  ((searchSorted s qe u thr).take topK).map (mkSearchResult fs)

/-! ### Concrete stores used by the failing-input theorems -/

/-- Two documents of two different users, with the canonical index:
the starting state of the `delete_document` failing input. -/
noncomputable def store2 : Store :=
  ⟨[⟨"A", "titleA", "sumA", [1], "", some 1⟩,
    ⟨"B", "titleB", "sumB", [1], "", some 2⟩],
   buildUserIndex
     [⟨"A", "titleA", "sumA", [1], "", some 1⟩,
      ⟨"B", "titleB", "sumB", [1], "", some 2⟩]⟩

/-- The state reached from a fresh store by
`add "A"(user 1); add "B"(user 2); add "C"(user 1); delete "A"(user 1)` —
a state reachable through the public API alone. -/
noncomputable def leakStore : Store :=
  (deleteDocument
    (addDocument
      (addDocument
        (addDocument store0 "A" "titleA" "sumA" [1] "" 1).1
        "B" "titleB" "sumB" [1] "" 2).1
      "C" "titleC" "sumC" [1] "" 1).1
    "A" 1).1

/-! ## Theorems -/

/-- C6: an answer `set` at time `tset` is returned by `get` at any time
`tget` with `tget - tset ≤ ttl` (leaving the cache unchanged); once
`tget - tset > ttl`, `get` returns `none` and removes the stale entry
from the cache as a side effect of the read. -/
theorem c6_cache_get_after_set (digest : String → String) (st : CacheState)
    (q c : String) (u : Int) (a : String) (tset tget ttl : ℚ) :
    (tget - tset ≤ ttl →
      cacheGet digest ttl (cacheSet digest st q c u a tset) q c u tget =
        (some a, cacheSet digest st q c u a tset)) ∧
    (ttl < tget - tset →
      (cacheGet digest ttl (cacheSet digest st q c u a tset) q c u tget).1 = none ∧
      (cacheGet digest ttl (cacheSet digest st q c u a tset) q c u tget).2
        (generateKey digest q c u) = none) := by
  have hkey : cacheSet digest st q c u a tset (generateKey digest q c u) =
      some ⟨q, a, tset, u⟩ := if_pos rfl
  constructor
  · intro h
    simp only [cacheGet, hkey]
    rw [if_neg (not_lt.2 h)]
  · intro h
    simp only [cacheGet, hkey]
    rw [if_pos h]
    exact ⟨rfl, if_pos rfl⟩

/-- Witness for C6 at a concrete cache interaction. -/
theorem c6_cache_get_after_set_witness :
    cacheGet id 5 (cacheSet id emptyCache "q" "ctx" 1 "ans" 0) "q" "ctx" 1 3 =
      (some "ans", cacheSet id emptyCache "q" "ctx" 1 "ans" 0) ∧
    (cacheGet id 5 (cacheSet id emptyCache "q" "ctx" 1 "ans" 0) "q" "ctx" 1 9).1 = none ∧
    (cacheGet id 5 (cacheSet id emptyCache "q" "ctx" 1 "ans" 0) "q" "ctx" 1 9).2
      (generateKey id "q" "ctx" 1) = none :=
  ⟨(c6_cache_get_after_set id emptyCache "q" "ctx" 1 "ans" 0 3 5).1 (by norm_num),
   (c6_cache_get_after_set id emptyCache "q" "ctx" 1 "ans" 0 9 5).2 (by norm_num)⟩

/-- Helper for C8: when the wrapped function raises a retryable error on
every attempt, the loop walks all remaining attempts, sleeping
`min(initial_delay * base ^ i, max_delay)` after every attempt `i` that is
followed by another one, and ends carrying the error of the last attempt. -/
theorem retryAux_all_retryable (f : Nat → CallOutcome α) (err : Nat → ApiError)
    (hf : ∀ i, f i = .raises (err i)) (herr : ∀ i, retryableError (err i) = true)
    (initD maxD base : ℚ) (maxRetries : Nat) :
    ∀ (n a calls : Nat) (sleeps : List ℚ) (last : Option ApiError),
      a + n = maxRetries → 1 ≤ n →
      retryAux f initD maxD base maxRetries (List.range' a n) calls sleeps last =
        (.error (some (err (maxRetries - 1))), calls + n,
          sleeps ++ (List.range' a (n - 1)).map (fun i => min (initD * base ^ i) maxD)) := by
  intro n
  induction n with
  | zero => intro a calls sleeps last _ h1; omega
  | succ m ih =>
    intro a calls sleeps last ha _
    rw [List.range'_succ]
    simp only [retryAux, hf a, herr a, if_true]
    cases m with
    | zero =>
      rw [if_neg (by omega)]
      have h1 : maxRetries - 1 = a := by omega
      simp [retryAux, h1]
    | succ k =>
      rw [if_pos (by omega)]
      rw [ih (a + 1) (calls + 1) (sleeps ++ [min (initD * base ^ a) maxD])
        (some (err a)) (by omega) (by omega)]
      simp only [Nat.add_sub_cancel, List.range'_succ, List.map_cons, Prod.mk.injEq]
      refine ⟨trivial, by omega, by simp⟩

/-- C8: a wrapped call raising a retryable error on every attempt is
invoked exactly `max_retries` times, sleeps
`min(initial_delay * base ^ i, max_delay)` after each 0-indexed attempt
`i` that is followed by a further attempt (`i < max_retries - 1`), and
finally re-raises the error of the last attempt; a call whose first
attempt raises a non-retryable error propagates it immediately: exactly
one invocation, no sleep. -/
theorem c8_retry_exhaustion_and_fatal (α : Type) (f g : Nat → CallOutcome α)
    (err : Nat → ApiError) (e : ApiError) (maxRetries : Nat) (initD maxD base : ℚ)
    (hmr : 1 ≤ maxRetries)
    (hf : ∀ i, f i = .raises (err i)) (herr : ∀ i, retryableError (err i) = true)
    (hg : g 0 = .raises e) (he : retryableError e = false) :
    runRetry f maxRetries initD maxD base =
      (.error (some (err (maxRetries - 1))), maxRetries,
        (List.range (maxRetries - 1)).map (fun i => min (initD * base ^ i) maxD)) ∧
    runRetry g maxRetries initD maxD base = (.error (some e), 1, []) := by
  constructor
  · unfold runRetry
    rw [List.range_eq_range']
    rw [retryAux_all_retryable f err hf herr initD maxD base maxRetries maxRetries
      0 0 [] none (by omega) hmr]
    simp [List.range_eq_range']
  · unfold runRetry
    obtain ⟨k, rfl⟩ : ∃ k, maxRetries = k + 1 := ⟨maxRetries - 1, by omega⟩
    rw [List.range_eq_range', List.range'_succ]
    simp [retryAux, hg, he]

/-- Witness for C8: with `max_retries = 3`, `initial_delay = 1`,
`max_delay = 60`, `base = 2`, a persistent rate-limit failure gives three
invocations, sleeps `[1, 2]`, and re-raises; a `TypeError`-like failure
gives one invocation and no sleep. -/
theorem c8_retry_exhaustion_and_fatal_witness :
    runRetry (α := Nat) (fun _ => .raises .rateLimit) 3 1 60 2 =
      (.error (some .rateLimit), 3, [1, 2]) ∧
    runRetry (α := Nat) (fun _ => .raises (.other "TypeError")) 3 1 60 2 =
      (.error (some (.other "TypeError")), 1, []) := by
  have h := c8_retry_exhaustion_and_fatal Nat (fun _ => .raises .rateLimit)
    (fun _ => .raises (.other "TypeError")) (fun _ => .rateLimit) (.other "TypeError")
    3 1 60 2 (by norm_num) (fun _ => rfl) (fun _ => rfl) rfl rfl
  exact ⟨h.1.trans (by norm_num [List.range_succ, min_def]), h.2⟩

/-- C3 (failing behaviour, contradicting the claim): the body of
`get_embedding` ends in `except Exception: return []`, which catches the
retryable `openai` errors before the `exponential_backoff` wrapper can
see them.  Even when the underlying client call raises a retryable error
on *every* attempt, the wrapped call returns the fallback `[]` after a
single invocation: no retry, no sleep, no error reaches the Retry
Policy. -/
theorem c3_inner_handler_masks_transient_errors
    (client : Nat → CallOutcome (List ℚ)) (e : ApiError)
    (hc : ∀ i, client i = .raises e) (_he : retryableError e = true) :
    getEmbeddingWithRetry client = (.value [], 1, []) := by
  unfold getEmbeddingWithRetry runRetry
  have h3 : List.range 3 = [0, 1, 2] := rfl
  rw [h3]
  simp [retryAux, getEmbeddingBody, hc 0]

/-- Witness for C3: a client that always raises `RateLimitError`. -/
theorem c3_inner_handler_masks_transient_errors_witness :
    getEmbeddingWithRetry (fun _ => .raises .rateLimit) = (.value [], 1, []) :=
  c3_inner_handler_masks_transient_errors (fun _ => .raises .rateLimit) .rateLimit
    (fun _ => rfl) rfl

/-- Helper for C5: appending one complete (user, assistant) pair keeps a
log paired. -/
theorem isPairedLog_append_pair (h : List ChatMsg) (u a : String)
    (hp : isPairedLog h = true) :
    isPairedLog (h ++ [⟨"user", u⟩, ⟨"assistant", a⟩]) = true := by
  induction h using isPairedLog.induct with
  | case1 => simp [isPairedLog]
  | case2 x => simp [isPairedLog] at hp
  | case3 x y t ih =>
    simp only [isPairedLog, Bool.and_eq_true] at hp
    simp only [List.cons_append, isPairedLog, Bool.and_eq_true]
    exact ⟨hp.1, ih hp.2⟩

/-- Helper for C5: a paired log has even length. -/
theorem isPairedLog_length_even (h : List ChatMsg) (hp : isPairedLog h = true) :
    h.length % 2 = 0 := by
  induction h using isPairedLog.induct with
  | case1 => rfl
  | case2 x => simp [isPairedLog] at hp
  | case3 x y t ih =>
    simp only [isPairedLog, Bool.and_eq_true] at hp
    have := ih hp.2
    simp only [List.length_cons]
    omega

/-- Helper for C5: one complete turn preserves pairedness and the
`2 * max_history` bound. -/
theorem runTurn_invariant (m : Nat) (hm : 1 ≤ m) (h : List ChatMsg)
    (t : String × String) (hp : isPairedLog h = true) (hl : h.length ≤ 2 * m) :
    isPairedLog (runTurn m h t) = true ∧ (runTurn m h t).length ≤ 2 * m := by
  unfold runTurn addUserMessage addAssistantMessage
  by_cases hcase : m * 2 < (h ++ [(⟨"user", t.1⟩ : ChatMsg)]).length
  · rw [if_pos hcase]
    have hlen : h.length = 2 * m := by
      simp only [List.length_append, List.length_cons, List.length_nil] at hcase
      omega
    cases h with
    | nil => simp at hlen; omega
    | cons x h1 =>
      cases h1 with
      | nil => simp at hlen; omega
      | cons y rest =>
        simp only [isPairedLog, Bool.and_eq_true] at hp
        have hdrop : List.drop 2 (x :: y :: (rest ++ [(⟨"user", t.1⟩ : ChatMsg)])) =
            rest ++ [(⟨"user", t.1⟩ : ChatMsg)] := rfl
        simp only [List.cons_append, hdrop]
        constructor
        · have := isPairedLog_append_pair rest t.1 t.2 hp.2
          simpa [List.append_assoc] using this
        · simp only [List.length_append, List.length_cons, List.length_nil] at hlen ⊢
          omega
  · rw [if_neg hcase]
    have heven := isPairedLog_length_even h hp
    constructor
    · have := isPairedLog_append_pair h t.1 t.2 hp
      simpa [List.append_assoc] using this
    · simp only [List.length_append, List.length_cons, List.length_nil, not_lt] at hcase
      simp only [List.length_append, List.length_cons, List.length_nil]
      omega

/-- Helper for C5: the turn invariant, folded over a whole conversation. -/
theorem runTurns_invariant_aux (m : Nat) (hm : 1 ≤ m) (ts : List (String × String)) :
    ∀ h, isPairedLog h = true → h.length ≤ 2 * m →
      isPairedLog (ts.foldl (runTurn m) h) = true ∧
      (ts.foldl (runTurn m) h).length ≤ 2 * m := by
  induction ts with
  | nil => intro h hp hl; exact ⟨hp, hl⟩
  | cons t rest ih =>
    intro h hp hl
    have step := runTurn_invariant m hm h t hp hl
    exact ih _ step.1 step.2

/-- C5 (amended): provided messages are appended as complete turns (each
`add_user_message` immediately followed by the matching
`add_assistant_message`) starting from the empty log, and `max_history ≥ 1`,
the retained history never exceeds `2 * max_history` entries and is always
a sequence of (user, assistant) pairs — in particular it never starts with
an assistant message; and when the log is full, a turn removes exactly the
two oldest entries, which form one (user, assistant) pair. -/
theorem c5_paired_turns_invariant (m : Nat) (hm : 1 ≤ m) :
    (∀ ts : List (String × String),
      isPairedLog (runTurns m ts) = true ∧ (runTurns m ts).length ≤ 2 * m) ∧
    (∀ (h : List ChatMsg) (u a : String), isPairedLog h = true →
      h.length = 2 * m →
      runTurn m h (u, a) = h.drop 2 ++ [⟨"user", u⟩, ⟨"assistant", a⟩]) := by
  constructor
  · intro ts
    exact runTurns_invariant_aux m hm ts [] rfl (by simp)
  · intro h u a _ hl
    unfold runTurn addUserMessage addAssistantMessage
    rw [if_pos (by simp only [List.length_append, List.length_cons, List.length_nil, hl]; omega)]
    rw [List.drop_append_of_le_length (by omega)]
    simp [List.append_assoc]

/-- Witness for C5 at `max_history = 1` with two concrete turns, and one
concrete full-log truncation. -/
theorem c5_paired_turns_invariant_witness :
    (isPairedLog (runTurns 1 [("q1", "a1"), ("q2", "a2")]) = true ∧
      (runTurns 1 [("q1", "a1"), ("q2", "a2")]).length ≤ 2 * 1) ∧
    runTurn 1 [⟨"user", "q0"⟩, ⟨"assistant", "a0"⟩] ("q1", "a1") =
      ([⟨"user", "q0"⟩, ⟨"assistant", "a0"⟩] : List ChatMsg).drop 2 ++
        [⟨"user", "q1"⟩, ⟨"assistant", "a1"⟩] :=
  ⟨(c5_paired_turns_invariant 1 (by norm_num)).1 _,
   (c5_paired_turns_invariant 1 (by norm_num)).2 _ "q1" "a1" (by decide) (by decide)⟩

/-- C5 counterexample: the claim quantifies over *every* sequence of
`add_user_message` / `add_assistant_message` calls, but truncation only
happens inside `add_user_message`.  Three bare `add_assistant_message`
calls drive a `max_history = 1` log to 3 > 2 × 1 entries, and already the
first one makes the log start with an assistant message. -/
theorem c5_unpaired_calls_break_invariants :
    (addAssistantMessage (addAssistantMessage (addAssistantMessage [] "a") "b") "c").length = 3 ∧
    ¬ (addAssistantMessage (addAssistantMessage (addAssistantMessage [] "a") "b") "c").length ≤ 2 * 1 ∧
    (addAssistantMessage [] "a").head? = some ⟨"assistant", "a"⟩ :=
  ⟨rfl, by decide, rfl⟩

/-- Helper for C4: decimal digit characters are never `':'`. -/
theorem digitChar10_ne_colon (d : Nat) : digitChar10 d ≠ ':' := by
  unfold digitChar10
  split <;> decide

/-- Helper for C4: decimal digit characters are never `'-'`. -/
theorem digitChar10_ne_dash (d : Nat) : digitChar10 d ≠ '-' := by
  unfold digitChar10
  split <;> decide

/-- Helper for C4: the numeric value of a decimal digit character. -/
theorem digitChar10_val (d : Nat) (h : d < 10) : (digitChar10 d).toNat - 48 = d := by
  interval_cases d <;> decide

/-- Helper for C4: decimal renderings contain no `':'`. -/
theorem colon_not_mem_natDigitsAux : ∀ (fuel n : Nat), ':' ∉ natDigitsAux fuel n
  | 0, n => by simp [natDigitsAux]
  | fuel + 1, n => by
    unfold natDigitsAux
    split
    · simp only [List.mem_singleton]
      exact fun h => digitChar10_ne_colon n h.symm
    · intro hmem
      rcases List.mem_append.1 hmem with h | h
      · exact colon_not_mem_natDigitsAux fuel (n / 10) h
      · simp only [List.mem_singleton] at h
        exact digitChar10_ne_colon (n % 10) h.symm

/-- Helper for C4: `parseDigits` on a one-digit string. -/
theorem parseDigits_single (c : Char) : parseDigits [c] = c.toNat - 48 := by
  unfold parseDigits
  simp

/-- Helper for C4: `parseDigits` peels the last digit. -/
theorem parseDigits_append_digit (l : List Char) (c : Char) :
    parseDigits (l ++ [c]) = parseDigits l * 10 + (c.toNat - 48) := by
  unfold parseDigits
  rw [List.foldl_append]
  rfl

/-- Helper for C4: reading a decimal rendering back gives the number. -/
theorem parseDigits_natDigitsAux : ∀ (fuel n : Nat), n < fuel →
    parseDigits (natDigitsAux fuel n) = n
  | 0, _, h => by omega
  | fuel + 1, n, h => by
    unfold natDigitsAux
    split
    · rename_i h10
      rw [parseDigits_single, digitChar10_val n h10]
    · rename_i h10
      rw [parseDigits_append_digit,
        parseDigits_natDigitsAux fuel (n / 10) (by omega),
        digitChar10_val (n % 10) (by omega)]
      omega

/-- Helper for C4: decimal rendering of naturals is injective. -/
theorem natDigits_inj {m n : Nat} (h : natDigits m = natDigits n) : m = n := by
  have hm : parseDigits (natDigits m) = m :=
    parseDigits_natDigitsAux (m + 1) m (Nat.lt_succ_self m)
  have hn : parseDigits (natDigits n) = n :=
    parseDigits_natDigitsAux (n + 1) n (Nat.lt_succ_self n)
  rw [← hm, ← hn, h]

/-- Helper for C4: a decimal rendering starts with a digit character. -/
theorem natDigitsAux_head : ∀ (fuel n : Nat), n < fuel →
    ∃ d t, d < 10 ∧ natDigitsAux fuel n = digitChar10 d :: t
  | 0, _, h => by omega
  | fuel + 1, n, h => by
    unfold natDigitsAux
    split
    · rename_i h10
      exact ⟨n, [], h10, rfl⟩
    · rename_i h10
      obtain ⟨d, t, hd, heq⟩ := natDigitsAux_head fuel (n / 10) (by omega)
      exact ⟨d, t ++ [digitChar10 (n % 10)], hd, by rw [heq]; rfl⟩

/-- Helper for C4: Python's `str` on integers is injective. -/
theorem intToDecimal_inj {a b : Int} (h : intToDecimal a = intToDecimal b) : a = b := by
  match a, b with
  | .ofNat m, .ofNat n =>
    simp only [intToDecimal] at h
    exact congrArg Int.ofNat (natDigits_inj h)
  | .negSucc m, .negSucc n =>
    simp only [intToDecimal] at h
    injection h with _ h2
    have h3 := natDigits_inj h2
    have : m = n := by omega
    rw [this]
  | .ofNat m, .negSucc n =>
    exfalso
    simp only [intToDecimal] at h
    obtain ⟨d, t, _, heq⟩ := natDigitsAux_head (m + 1) m (Nat.lt_succ_self m)
    rw [show natDigits m = digitChar10 d :: t from heq] at h
    injection h with h1 _
    exact digitChar10_ne_dash d h1
  | .negSucc m, .ofNat n =>
    exfalso
    simp only [intToDecimal] at h
    obtain ⟨d, t, _, heq⟩ := natDigitsAux_head (n + 1) n (Nat.lt_succ_self n)
    rw [show natDigits n = digitChar10 d :: t from heq] at h
    injection h with h1 _
    exact digitChar10_ne_dash d h1.symm

/-- Helper for C4: Python's `str` of an integer contains no `':'`. -/
theorem colon_not_mem_intToDecimal (u : Int) : ':' ∉ intToDecimal u := by
  match u with
  | .ofNat n => exact colon_not_mem_natDigitsAux (n + 1) n
  | .negSucc n =>
    intro hmem
    rcases List.mem_cons.1 hmem with h | h
    · exact absurd h (by decide)
    · exact colon_not_mem_natDigitsAux (n + 2) (n + 1) h

/-- Helper for C4: a separator-delimited concatenation determines its two
parts when neither left part contains the separator. -/
theorem append_sep_inj (x : Char) :
    ∀ (l1 l2 r1 r2 : List Char), x ∉ l1 → x ∉ l2 →
      l1 ++ x :: r1 = l2 ++ x :: r2 → l1 = l2 ∧ r1 = r2
  | [], [], r1, r2, _, _, h => by
    simp only [List.nil_append] at h
    injection h with _ h2
    exact ⟨rfl, h2⟩
  | [], b :: t2, r1, r2, _, h2, h => by
    simp only [List.nil_append, List.cons_append] at h
    injection h with hb _
    subst hb
    exact absurd (List.mem_cons_self _ _) h2
  | a :: t1, [], r1, r2, h1, _, h => by
    simp only [List.cons_append, List.nil_append] at h
    injection h with ha _
    subst ha
    exact absurd (List.mem_cons_self _ _) h1
  | a :: t1, b :: t2, r1, r2, h1, h2, h => by
    simp only [List.cons_append] at h
    injection h with hab htail
    subst hab
    have ih := append_sep_inj x t1 t2 r1 r2
      (fun hm => h1 (List.mem_cons_of_mem _ hm))
      (fun hm => h2 (List.mem_cons_of_mem _ hm)) htail
    exact ⟨by rw [ih.1], ih.2⟩

/-- C4 counterexample: the composite key string aliases distinct
`(user_id, query, context)` triples when the query contains `':'`:
`(1, "a:b", "c")` and `(1, "a", "b:c")` both produce `"1:a:b:c"` — so
they share a cache entry (SHA-256 of equal strings is equal) although the
triples differ.  The key function is therefore not injective. -/
theorem c4_composite_key_collision :
    compositeKey 1 "a:b" "c" = compositeKey 1 "a" "b:c" ∧
    ¬ (("a:b" : String) = "a" ∧ ("c" : String) = "b:c") :=
  ⟨by decide, by decide⟩

/-- C4 (amended): modulo SHA-256 collisions the cache-entry identity is
the composite string `str(user_id) ++ ":" ++ query ++ ":" ++ context`,
and on triples whose *query* contains no `':'` that string is injective:
two such calls address the same entry iff `user_id`, `query` and
`context` all match exactly.  (Queries containing `':'` can alias
distinct triples, as the counterexample shows.) -/
theorem c4_composite_key_injective_colon_free (u1 u2 : Int) (q1 c1 q2 c2 : String)
    (h1 : ':' ∉ q1.data) (h2 : ':' ∉ q2.data) :
    compositeKey u1 q1 c1 = compositeKey u2 q2 c2 ↔ u1 = u2 ∧ q1 = q2 ∧ c1 = c2 := by
  constructor
  · intro h
    have hd : intToDecimal u1 ++ ':' :: (q1.data ++ ':' :: c1.data) =
        intToDecimal u2 ++ ':' :: (q2.data ++ ':' :: c2.data) := congrArg String.data h
    obtain ⟨hu, hqc⟩ := append_sep_inj ':' _ _ _ _ (colon_not_mem_intToDecimal u1)
      (colon_not_mem_intToDecimal u2) hd
    obtain ⟨hq, hc⟩ := append_sep_inj ':' _ _ _ _ h1 h2 hqc
    exact ⟨intToDecimal_inj hu, String.ext hq, String.ext hc⟩
  · rintro ⟨rfl, rfl, rfl⟩
    rfl

/-- Witness for C4 (amended) at a concrete colon-free query. -/
theorem c4_composite_key_injective_colon_free_witness :
    compositeKey 7 "hello" "ctx" = compositeKey 7 "hello" "ctx" ↔
      (7 : Int) = 7 ∧ ("hello" : String) = "hello" ∧ ("ctx" : String) = "ctx" :=
  c4_composite_key_injective_colon_free 7 7 "hello" "ctx" "hello" "ctx"
    (by decide) (by decide)

/-- C9: `route` is deterministic (it is a pure function of the query —
the router mutates no state); when every query type scores zero the query
routes to `analytical`, i.e. strategy `broad` with `top_k = 7`; a query
scoring only in the `comparison` category routes to `comprehensive` with
`top_k = 10`; and every returned strategy carries
`similarity_threshold = 0.0`. -/
theorem c9_router_properties :
    (∀ q : String, route q = route q) ∧
    (∀ q : String, (∀ t, scoreQuery q t = 0) →
      route q = ⟨q, .analytical, .broad, 7, 0,
        "Broad search for analytical questions"⟩) ∧
    (∀ q : String, scoreQuery q .comparison ≠ 0 → scoreQuery q .factual = 0 →
      scoreQuery q .analytical = 0 → scoreQuery q .procedural = 0 →
      scoreQuery q .conceptual = 0 →
      (route q).strategy = .comprehensive ∧ (route q).topK = 10) ∧
    (∀ q : String, (route q).similarityThreshold = 0) := by
  refine ⟨fun q => rfl, ?_, ?_, fun q => rfl⟩
  · intro q h
    simp [route, classifyQuery, typeOrder, h, strategyFor, strategyTopK,
      strategyThreshold, strategyDescription]
  · intro q h1 h2 h3 h4 h5
    have hpos : 0 < scoreQuery q .comparison := Nat.pos_of_ne_zero h1
    constructor <;>
      simp [route, classifyQuery, typeOrder, firstArgMax, h1, h2, h3, h4, h5,
        hpos, strategyFor, strategyTopK]

/-- Witness for C9: the keyword-free query `"привет"` routes to
`analytical`/`broad`/7; the comparison-only query `"сравни x и y"`
routes to `comprehensive`/10. -/
theorem c9_router_properties_witness :
    route "привет" = ⟨"привет", .analytical, .broad, 7, 0,
      "Broad search for analytical questions"⟩ ∧
    ((route "сравни x и y").strategy = .comprehensive ∧
      (route "сравни x и y").topK = 10) :=
  ⟨c9_router_properties.2.1 "привет" (by intro t; cases t <;> decide),
   c9_router_properties.2.2.1 "сравни x и y" (by decide) (by decide) (by decide)
     (by decide) (by decide)⟩

/-- Helper for C10: a sum of squares is nonnegative. -/
theorem sumSq_nonneg (v : List ℝ) : 0 ≤ sumSq v := by
  apply List.sum_nonneg
  intro x hx
  obtain ⟨y, _, rfl⟩ := List.mem_map.1 hx
  exact mul_self_nonneg y

/-- Helper for C10: the dot product of a vector with itself is its sum of
squares. -/
theorem dotList_self (v : List ℝ) : dotList v v = sumSq v := by
  induction v with
  | nil => rfl
  | cons x t ih =>
    simp only [dotList, sumSq, List.zipWith_cons_cons, List.map_cons, List.sum_cons] at ih ⊢
    rw [ih]

/-- Helper for C10: a sum of squares with one nonzero entry is positive. -/
theorem sumSq_pos_of_mem (v : List ℝ) (x : ℝ) (hm : x ∈ v) (hx : x ≠ 0) :
    0 < sumSq v := by
  induction v with
  | nil => simp at hm
  | cons y t ih =>
    have ht : 0 ≤ sumSq t := sumSq_nonneg t
    simp only [sumSq, List.map_cons, List.sum_cons] at ht ⊢
    rcases List.mem_cons.1 hm with h | h
    · subst h
      have hp : 0 < x * x := mul_self_pos.2 hx
      linarith
    · have hp := ih h
      simp only [sumSq] at hp
      have hy := mul_self_nonneg y
      linarith

/-- Helper for C10: the Cauchy–Schwarz inequality for list dot products
(no length hypothesis needed: `zipWith` truncates, which only shrinks the
left side). -/
theorem cauchy_list : ∀ (a b : List ℝ), dotList a b ^ 2 ≤ sumSq a * sumSq b
  | [], b => by
    have hb : 0 ≤ sumSq b := sumSq_nonneg b
    simp only [sumSq] at hb
    simp only [dotList, List.zipWith_nil_left, List.sum_nil, sumSq, List.map_nil]
    nlinarith
  | x :: as, [] => by
    have ha : 0 ≤ sumSq (x :: as) := sumSq_nonneg (x :: as)
    simp only [sumSq] at ha
    simp only [dotList, List.zipWith_nil_right, List.sum_nil, sumSq, List.map_nil]
    nlinarith
  | x :: as, y :: bs => by
    have ih := cauchy_list as bs
    have hA : 0 ≤ sumSq as := sumSq_nonneg as
    have hB : 0 ≤ sumSq bs := sumSq_nonneg bs
    simp only [sumSq] at hA hB
    simp only [dotList, sumSq, List.zipWith_cons_cons, List.map_cons,
      List.sum_cons] at ih ⊢
    set d := (List.zipWith (· * ·) as bs).sum with hd
    set A := (List.map (fun z => z * z) as).sum with hA2
    set B := (List.map (fun z => z * z) bs).sum with hB2
    rcases eq_or_lt_of_le hB with hB0 | hB0
    · have h0 : d ^ 2 = 0 :=
        le_antisymm (by nlinarith) (sq_nonneg d)
      have hd0 : d = 0 := pow_eq_zero_iff two_ne_zero |>.1 h0
      rw [hd0, ← hB0]
      nlinarith [mul_nonneg hA (mul_self_nonneg y)]
    · nlinarith [sq_nonneg (x * B - y * d),
        mul_nonneg (add_nonneg (mul_self_nonneg y) hB) (sub_nonneg.2 ih), hB0, hA]

/-- Helper for C10: the dot product is bounded by the product of norms. -/
theorem dotList_abs_le (a b : List ℝ) :
    |dotList a b| ≤ Real.sqrt (sumSq a) * Real.sqrt (sumSq b) := by
  rw [← Real.sqrt_sq_eq_abs, ← Real.sqrt_mul (sumSq_nonneg a) (sumSq b)]
  exact Real.sqrt_le_sqrt (cauchy_list a b)

/-- C10: `_cosine_similarity` always lies in `[-1, 1]`; it equals
`dot(a,b) / (‖a‖·‖b‖)` whenever the vectors have equal dimension and both
norms are nonzero; it is `1` on `(a, a)` for every nonzero vector `a`;
and it is `0` whenever either norm is zero. -/
theorem c10_cosine_similarity_properties (a b : List ℝ) :
    (-1 ≤ cosineSimilarity a b ∧ cosineSimilarity a b ≤ 1) ∧
    (a.length = b.length → Real.sqrt (sumSq a) ≠ 0 → Real.sqrt (sumSq b) ≠ 0 →
      cosineSimilarity a b =
        dotList a b / (Real.sqrt (sumSq a) * Real.sqrt (sumSq b))) ∧
    ((∃ x ∈ a, x ≠ 0) → cosineSimilarity a a = 1) ∧
    (Real.sqrt (sumSq a) = 0 ∨ Real.sqrt (sumSq b) = 0 →
      cosineSimilarity a b = 0) := by
  refine ⟨?_, ?_, ?_, ?_⟩
  · by_cases hlen : a.length = b.length
    · by_cases hz : Real.sqrt (sumSq a) = 0 ∨ Real.sqrt (sumSq b) = 0
      · unfold cosineSimilarity
        rw [if_pos hlen, if_pos hz]
        norm_num
      · unfold cosineSimilarity
        rw [if_pos hlen, if_neg hz]
        push_neg at hz
        have hA : 0 < Real.sqrt (sumSq a) :=
          lt_of_le_of_ne (Real.sqrt_nonneg _) (Ne.symm hz.1)
        have hB : 0 < Real.sqrt (sumSq b) :=
          lt_of_le_of_ne (Real.sqrt_nonneg _) (Ne.symm hz.2)
        have habs : |dotList a b / (Real.sqrt (sumSq a) * Real.sqrt (sumSq b))| ≤ 1 := by
          rw [abs_div, abs_of_pos (mul_pos hA hB)]
          exact div_le_one_of_le₀ (dotList_abs_le a b) (le_of_lt (mul_pos hA hB))
        exact abs_le.1 habs
    · unfold cosineSimilarity
      rw [if_neg hlen]
      norm_num
  · intro hlen h1 h2
    unfold cosineSimilarity
    rw [if_pos hlen, if_neg (by push_neg; exact ⟨h1, h2⟩)]
  · intro hx
    obtain ⟨x, hxmem, hxne⟩ := hx
    have hpos : 0 < sumSq a := sumSq_pos_of_mem a x hxmem hxne
    have hs : Real.sqrt (sumSq a) ≠ 0 := ne_of_gt (Real.sqrt_pos.2 hpos)
    unfold cosineSimilarity
    rw [if_pos rfl, if_neg (by push_neg; exact ⟨hs, hs⟩)]
    rw [dotList_self, Real.mul_self_sqrt (le_of_lt hpos)]
    exact div_self (ne_of_gt hpos)
  · intro h
    unfold cosineSimilarity
    by_cases hlen : a.length = b.length
    · rw [if_pos hlen, if_pos h]
    · rw [if_neg hlen]

/-- Witness for C10 at concrete vectors. -/
theorem c10_cosine_similarity_properties_witness :
    (-1 ≤ cosineSimilarity [1] [0] ∧ cosineSimilarity [1] [0] ≤ 1) ∧
    cosineSimilarity [1, 0] [1, 1] =
      dotList [1, 0] [1, 1] /
        (Real.sqrt (sumSq [1, 0]) * Real.sqrt (sumSq [1, 1])) ∧
    cosineSimilarity [1] [1] = 1 ∧
    cosineSimilarity [0] [1] = 0 := by
  have hs1 : sumSq [(1:ℝ), 0] = 1 := by norm_num [sumSq]
  have hs2 : sumSq [(1:ℝ), 1] = 2 := by norm_num [sumSq]
  refine ⟨(c10_cosine_similarity_properties [1] [0]).1, ?_, ?_, ?_⟩
  · exact (c10_cosine_similarity_properties [1, 0] [1, 1]).2.1 rfl
      (by rw [hs1, Real.sqrt_one]; norm_num)
      (by rw [hs2]; exact Real.sqrt_ne_zero'.2 (by norm_num))
  · exact (c10_cosine_similarity_properties [1] [1]).2.2.1
      ⟨1, List.mem_singleton.2 rfl, one_ne_zero⟩
  · exact (c10_cosine_similarity_properties [0] [1]).2.2.2
      (Or.inl (by simp [sumSq]))

/-- C1 (failing behaviour, contradicting the claim): start from the
canonical two-user state `store2` (documents `"A"` of user 1 at position
0 and `"B"` of user 2 at position 1, with the index exactly as
`_build_user_index` builds it).  `delete_document("A", 1)` succeeds and
leaves `["B"]`, but only user 1's index entry is renumbered: user 2's
entry still reads `[1]` although their document now sits at position 0
(`_build_user_index` would give `[0]`), and a subsequent
`get_user_documents(2)` raises `IndexError` (modelled as `none`) instead
of returning user 2's untouched document. -/
theorem c1_delete_leaves_other_user_index_stale :
    (deleteDocument store2 "A" 1).2 = true ∧
    (deleteDocument store2 "A" 1).1.documents.map Doc.id = ["B"] ∧
    (deleteDocument store2 "A" 1).1.userIndex 1 = [] ∧
    (deleteDocument store2 "A" 1).1.userIndex 2 = [1] ∧
    buildUserIndex (deleteDocument store2 "A" 1).1.documents 2 = [0] ∧
    getUserDocuments (deleteDocument store2 "A" 1).1 2 = none :=
  ⟨rfl, rfl, rfl, rfl, rfl, rfl⟩

/-- Helper for C2: the cosine similarity of the one-dimensional vector
`[1]` with itself is `1`. -/
theorem cosSim_single_one : cosineSimilarity [(1:ℝ)] [1] = 1 := by
  have h1 : sumSq [(1:ℝ)] = 1 := by norm_num [sumSq]
  unfold cosineSimilarity
  rw [if_pos rfl, h1, Real.sqrt_one]
  rw [if_neg (by norm_num)]
  norm_num [dotList]

/-- C2 (failing behaviour, contradicting the claim): `leakStore` is
reached through the public API alone (three `add_document` calls and one
`delete_document` call).  After user 1 deletes `"A"`, user 2's stale
index entry `[1]` points at user 1's document `"C"`, and
`search_documents` for user 2 returns a result built from `"C"` — a
document whose `user_id` is 1 ≠ 2. -/
theorem c2_search_returns_other_users_document :
    leakStore.documents.map (fun d => (d.id, d.userId)) =
      [("B", some 2), ("C", some 1)] ∧
    searchDocuments (fun _ => none) leakStore [1] 2 10 0 =
      [{ title := "titleC", summary := "sumC", fullText := "sumC",
         similarity := 1, distance := 0 }] := by
  constructor
  · rfl
  · have hc : searchCandidates leakStore [1] 2 0 =
        List.filter (fun p => decide ((0:ℝ) ≤ p.1))
          [(cosineSimilarity [1] [1], ⟨"C", "titleC", "sumC", [1], "", some 1⟩)] := rfl
    have hc2 : searchCandidates leakStore [1] 2 0 =
        [((1:ℝ), ⟨"C", "titleC", "sumC", [1], "", some 1⟩)] := by
      rw [hc, cosSim_single_one]
      simp
    unfold searchDocuments searchSorted
    rw [hc2, List.mergeSort_singleton]
    have hmk : mkSearchResult (fun _ => none)
        ((1:ℝ), ⟨"C", "titleC", "sumC", [1], "", some 1⟩) =
        { title := "titleC", summary := "sumC", fullText := "sumC",
          similarity := 1, distance := 0 } := by
      unfold mkSearchResult
      norm_num
    calc ([((1:ℝ), (⟨"C", "titleC", "sumC", [1], "", some 1⟩ : Doc))].take 10).map
          (mkSearchResult (fun _ => none))
        = [mkSearchResult (fun _ => none)
            ((1:ℝ), ⟨"C", "titleC", "sumC", [1], "", some 1⟩)] := rfl
      _ = [{ title := "titleC", summary := "sumC", fullText := "sumC",
             similarity := 1, distance := 0 }] := by rw [hmk]

/-- Helper for C7: the descending comparator is transitive. -/
theorem simDescLE_trans (a b c : ℝ × Doc) (hab : simDescLE a b) (hbc : simDescLE b c) :
    simDescLE a c := by
  simp only [simDescLE, decide_eq_true_eq] at hab hbc ⊢
  exact le_trans hbc hab

/-- Helper for C7: the descending comparator is total. -/
theorem simDescLE_total (a b : ℝ × Doc) : simDescLE a b || simDescLE b a := by
  simp only [simDescLE, Bool.or_eq_true, decide_eq_true_eq]
  exact le_total b.1 a.1

/-- Helper for C7: every candidate pair passed the threshold filter. -/
theorem searchCandidates_threshold (s : Store) (qe : List ℝ) (u : Int) (thr : ℝ) :
    ∀ p ∈ searchCandidates s qe u thr, thr ≤ p.1 := by
  intro p hp
  unfold searchCandidates at hp
  split at hp
  · exact absurd hp (List.not_mem_nil p)
  · split at hp
    · exact absurd hp (List.not_mem_nil p)
    · split at hp
      · exact absurd hp (List.not_mem_nil p)
      · split at hp
        · exact of_decide_eq_true (List.mem_filter.1 hp).2
        · exact absurd hp (List.not_mem_nil p)

/-- Helper for C7: the sorted candidate list is descending in similarity. -/
theorem searchSorted_pairwise (s : Store) (qe : List ℝ) (u : Int) (thr : ℝ) :
    (searchSorted s qe u thr).Pairwise (fun p1 p2 => p2.1 ≤ p1.1) := by
  have h := List.sorted_mergeSort simDescLE_trans simDescLE_total
    (searchCandidates s qe u thr)
  exact h.imp (fun hab => by
    simpa only [simDescLE, decide_eq_true_eq] using hab)

/-- C7: every result of `search_documents` has `similarity ≥
similarity_threshold`; results are sorted descending by similarity; at
most `top_k` results are returned; the sort is stable (for every
similarity value, the tied pairs appear in the sorted candidate list
exactly in their original candidate order); and the result is the empty
list — not an error — when the caller has no index entry or the query
embedding came back empty. -/
theorem c7_search_result_properties (fs : String → Option String) (s : Store)
    (qe : List ℝ) (u : Int) (topK : Nat) (thr : ℝ) :
    (∀ r ∈ searchDocuments fs s qe u topK thr, thr ≤ r.similarity) ∧
    (searchDocuments fs s qe u topK thr).Pairwise
      (fun r1 r2 => r2.similarity ≤ r1.similarity) ∧
    (searchDocuments fs s qe u topK thr).length ≤ topK ∧
    (∀ v : ℝ, (searchSorted s qe u thr).filter (fun p => decide (p.1 = v)) =
      (searchCandidates s qe u thr).filter (fun p => decide (p.1 = v))) ∧
    (s.userIndex u = [] → searchDocuments fs s qe u topK thr = []) ∧
    (qe = [] → searchDocuments fs s qe u topK thr = []) := by
  refine ⟨?_, ?_, ?_, ?_, ?_, ?_⟩
  · intro r hr
    obtain ⟨p, hp, rfl⟩ := List.mem_map.1 hr
    have hp2 : p ∈ searchSorted s qe u thr := List.mem_of_mem_take hp
    have hp3 : p ∈ searchCandidates s qe u thr := List.mem_mergeSort.1 hp2
    exact searchCandidates_threshold s qe u thr p hp3
  · unfold searchDocuments
    rw [List.pairwise_map]
    exact ((searchSorted_pairwise s qe u thr).sublist
      (List.take_sublist topK _)).imp (fun h => h)
  · simp only [searchDocuments, List.length_map, List.length_take]
    exact min_le_left _ _
  · intro v
    have h1 : List.Sublist
        ((searchCandidates s qe u thr).filter (fun p => decide (p.1 = v)))
        (searchCandidates s qe u thr) := List.filter_sublist _
    have h2 : ((searchCandidates s qe u thr).filter
        (fun p => decide (p.1 = v))).Pairwise (fun a b => simDescLE a b = true) := by
      apply List.pairwise_of_forall_mem_list
      intro a ha b hb
      have hav : a.1 = v := of_decide_eq_true (List.mem_filter.1 ha).2
      have hbv : b.1 = v := of_decide_eq_true (List.mem_filter.1 hb).2
      simp only [simDescLE, decide_eq_true_eq, hav, hbv, le_refl]
    have h3 : List.Sublist
        ((searchCandidates s qe u thr).filter (fun p => decide (p.1 = v)))
        ((searchCandidates s qe u thr).mergeSort simDescLE) :=
      List.sublist_mergeSort simDescLE_trans simDescLE_total h2 h1
    have h4 : List.Perm
        (((searchCandidates s qe u thr).mergeSort simDescLE).filter
          (fun p => decide (p.1 = v)))
        ((searchCandidates s qe u thr).filter (fun p => decide (p.1 = v))) :=
      (List.mergeSort_perm (searchCandidates s qe u thr) simDescLE).filter _
    have h5 := h3.filter (fun p => decide (p.1 = v))
    rw [List.filter_filter] at h5
    simp only [Bool.and_self] at h5
    exact (h5.eq_of_length h4.length_eq.symm).symm
  · intro h
    unfold searchDocuments searchSorted searchCandidates
    split
    · simp
    · rw [if_pos h]
      simp
  · intro h
    subst h
    unfold searchDocuments searchSorted searchCandidates
    split
    · simp
    · by_cases hui : s.userIndex u = []
      · rw [if_pos hui]
        simp
      · rw [if_neg hui]
        simp

/-- Witness for C7: the empty-result branches at concrete stores. -/
theorem c7_search_result_properties_witness :
    searchDocuments (fun _ => none) store0 [1] 5 3 0 = [] ∧
    searchDocuments (fun _ => none) store2 [] 1 3 0 = [] :=
  ⟨(c7_search_result_properties (fun _ => none) store0 [1] 5 3 0).2.2.2.2.1 rfl,
   (c7_search_result_properties (fun _ => none) store2 [] 1 3 0).2.2.2.2.2 rfl⟩
